import Mathlib

/-!
Verification of the pill-counter pipeline (`src/app.py`, `process_image`).

The Python function is a straight-line pipeline over numpy/OpenCV arrays:
decode, circular mask, BGR→HSV, `inRange`, optional closing + hole filling,
opening, L2 distance transform (5×5 mask), threshold at
`sep_force * dist.max()`, external contours, area filter, count/draw.

The embedding below translates each line of `process_image` into a pure
Lean function.  OpenCV primitives (which are external library calls, not
code of this repository) are modelled by their documented pixel-level
semantics; each such model carries a doc comment naming the primitive and
the modelling choices:
  * `cv2.circle(mask, c, r, 255, -1)` — the filled raster is modelled as
    the set of integer points at Euclidean distance ≤ r from the integer
    center;
  * `cv2.cvtColor(-, COLOR_BGR2HSV)` — the documented 8-bit formula
    (V = max, S = 255(V−min)/V, H = sector formula halved), with
    round-half-up rationals in place of OpenCV's fixed-point rounding;
  * `cv2.erode`/`cv2.dilate` — min/max over the 5×5 window, with OpenCV's
    default border handling (out-of-image counts as foreground for erosion
    and as background for dilation); `morphologyEx(OPEN, k, iterations=n)`
    is n erosions followed by n dilations, `CLOSE` the reverse;
  * `cv2.distanceTransform(-, DIST_L2, 5)` — for each foreground pixel the
    minimum over background pixels of the documented 5×5 chamfer metric
    with weights a=1, b=1.4, c=2.1969, scaled by 10000 to integers (the
    float computation is modelled exactly by these rationals); a foreground
    image with no background pixel keeps the huge initialisation value;
  * `cv2.findContours(-, RETR_EXTERNAL, CHAIN_APPROX_SIMPLE)` — one entry
    per 8-connected foreground component, in first-pixel row-major order;
    `cv2.contourArea` / `cv2.moments` on a component are modelled at region
    level (pixel count and pixel coordinate sums); the polygon-level
    Green-formula versions of `contourArea` and `m00`, which OpenCV really
    computes on the traced boundary, are defined separately
    (`contourAreaG`, `m00G`) and related by `m00G_eq_contourAreaG`;
  * `cv2.drawContours(img, [c], 0, 255, -1)` in the hole-filling branch —
    fills the component together with every pixel that cannot reach the
    image border through non-component pixels (the region enclosed by the
    outer contour);
  * `cv2.imdecode` — a primitive producing `Option Frame`; `None` makes
    the subsequent `img.shape` access abort the invocation
    (`PipeError.decodeError` in the model);
  * the drawing calls `cv2.circle`/`cv2.putText`/`cv2.rectangle` on
    `output_img` — recorded as `DrawCmd` values with the exact coordinate
    arguments computed by the source, since their pixel rasterisation is a
    display primitive that no claim inspects.

The Streamlit sliders of the source are gathered into `Config`; each
invocation of `process_image` reads them as fixed values, so the pipeline
is a function of (decoded frame, configuration).
-/

namespace PillCounter

/-- A BGR pixel: blue, green, red 8-bit samples. -/
abbrev Px := ℕ × ℕ × ℕ

/-- A decoded frame: the `h × w` BGR pixel grid produced by `cv2.imdecode`
(`img` in the source, with `h, w = img.shape[:2]`).  `px x y` is the pixel
in column `x`, row `y`; values outside `[0,w) × [0,h)` are never consumed
by the pipeline. -/
structure Frame where
  h : ℕ
  w : ℕ
  px : ℤ → ℤ → Px

/-- The slider values of `src/app.py` (lines 22–37), read by
`process_image` as globals: mask radius fraction, HSV bounds, hole
filling, minimum area and separation force. -/
structure Config where
  mask_radius : ℚ
  h_min : ℕ
  h_max : ℕ
  s_min : ℕ
  s_max : ℕ
  v_min : ℕ
  v_max : ℕ
  fill_holes : Bool
  min_area : ℕ
  sep_force : ℚ

/-- Bounds test for a coordinate pair against the frame extents. -/
def inBds (f : Frame) (x y : ℤ) : Bool :=
  decide (0 ≤ x ∧ x < (f.w : ℤ) ∧ 0 ≤ y ∧ y < (f.h : ℤ))

/-- `center = (int(w//2), int(h//2))` (source line 48), x component. -/
def cxOf (f : Frame) : ℤ := (f.w : ℤ) / 2

/-- `center = (int(w//2), int(h//2))` (source line 48), y component. -/
def cyOf (f : Frame) : ℤ := (f.h : ℤ) / 2

/-- `radius = int(min(h, w) / 2 * mask_radius)` (source line 49): true
division followed by `int`, i.e. the floor for the nonnegative slider
values; computed exactly as `⌊min(h,w)·num / (2·den)⌋` on the rational
`mask_radius = num/den`. -/
def radiusOf (f : Frame) (cfg : Config) : ℤ :=
  Int.fdiv ((min f.h f.w : ℤ) * cfg.mask_radius.num) (2 * (cfg.mask_radius.den : ℤ))

/-- The circular mask drawn by `cv2.circle(mask, center, radius, 255, -1)`
(source line 50): an in-bounds pixel is white iff it lies within Euclidean
distance `radius` of the integer center. -/
def maskBit (f : Frame) (cfg : Config) (x y : ℤ) : Bool :=
  inBds f x y && decide ((x - cxOf f) ^ 2 + (y - cyOf f) ^ 2 ≤ radiusOf f cfg ^ 2)

/-- `masked_img = cv2.bitwise_and(img, img, mask=mask)` (source line 53):
pixels under the mask keep their value, all others become black. -/
def maskedPx (f : Frame) (cfg : Config) (x y : ℤ) : Px :=
  if maskBit f cfg x y then f.px x y else (0, 0, 0)

/-- Round-half-up of the nonnegative fraction `a / b` (for `b > 0`),
standing in for OpenCV's fixed-point rounding in the BGR→HSV
conversion. -/
def roundDiv (a b : ℕ) : ℕ := (2 * a + b) / (2 * b)

/-- Round-half-up of the signed fraction `p / q` (for `q > 0`). -/
def roundDivI (p q : ℤ) : ℤ := Int.fdiv (2 * p + q) (2 * q)

/-- The 8-bit BGR→HSV conversion of `cv2.cvtColor(-, COLOR_BGR2HSV)`
(source line 56), per the OpenCV documentation: `V = max(B,G,R)`,
`S = round(255·(V−min)/V)` (0 when `V = 0`), and
`H = round(H_full/2)` with `H_full` from the 60°-sector formula (ties
resolved in R, G, B order as in the OpenCV kernel), shifted by 360 when
negative.  The halving and the 360-shift are folded into the integer
arithmetic exactly: `round((H_full+360)/2) = round(H_full/2) + 180`, and
`H_full < 0` happens exactly in the `V = R` sector when `G < B`. -/
def hsvOf (p : Px) : ℕ × ℕ × ℕ :=
  let b := p.1
  let g := p.2.1
  let r := p.2.2
  let v := max b (max g r)
  let mn := min b (min g r)
  let s : ℕ := if v = 0 then 0 else roundDiv (255 * (v - mn)) v
  let d : ℤ := (v : ℤ) - (mn : ℤ)
  let hh : ℤ :=
    if v = mn then 0
    else if v = r then
      let h0 := roundDivI (30 * ((g : ℤ) - (b : ℤ))) d
      if g < b then h0 + 180 else h0
    else if v = g then 60 + roundDivI (30 * ((b : ℤ) - (r : ℤ))) d
    else 120 + roundDivI (30 * ((r : ℤ) - (g : ℤ))) d
  (hh.toNat, s, v)

/-- `cv2.inRange(hsv, lower_bound, upper_bound)` (source lines 57–61): a
pixel is foreground iff each HSV channel lies in its closed interval. -/
def hsvInRange (cfg : Config) (c : ℕ × ℕ × ℕ) : Bool :=
  decide (cfg.h_min ≤ c.1 ∧ c.1 ≤ cfg.h_max ∧
    cfg.s_min ≤ c.2.1 ∧ c.2.1 ≤ cfg.s_max ∧
    cfg.v_min ≤ c.2.2 ∧ c.2.2 ≤ cfg.v_max)

/-- The binarisation `thresh = cv2.inRange(cv2.cvtColor(masked_img, BGR2HSV), lo, hi)`
as a pixel predicate (false outside the frame). -/
def threshFn (f : Frame) (cfg : Config) (x y : ℤ) : Bool :=
  inBds f x y && hsvInRange cfg (hsvOf (maskedPx f cfg x y))

/-- A materialised binary image, row-major list of rows, mirroring the
numpy arrays that each OpenCV call allocates. -/
abbrev Tab := List (List Bool)

/-- Materialise a pixel predicate over the `h × w` grid. -/
def tabulate (h w : ℕ) (g : ℤ → ℤ → Bool) : Tab :=
  (List.range h).map fun (y : ℕ) => (List.range w).map fun (x : ℕ) => g (x : ℤ) (y : ℤ)

/-- Read a materialised binary image; out-of-range reads are background. -/
def tabGet (t : Tab) (x y : ℤ) : Bool :=
  if 0 ≤ x ∧ 0 ≤ y then ((t[y.toNat]?.getD [])[x.toNat]?).getD false else false

/-- The 5×5 window of `np.ones((5,5), np.uint8)` (source line 64),
anchored at its center. -/
def win2 (x y : ℤ) : List (ℤ × ℤ) :=
  (List.range 5).flatMap fun (i : ℕ) => (List.range 5).map fun (j : ℕ) =>
    (x + (i : ℤ) - 2, y + (j : ℤ) - 2)

/-- One `cv2.erode` step with the 5×5 kernel: a pixel stays foreground iff
every in-bounds window pixel is foreground (OpenCV's default border value
for erosion treats out-of-image pixels as foreground). -/
def erodeFn (f : Frame) (t : Tab) (x y : ℤ) : Bool :=
  inBds f x y && (win2 x y).all fun p => !inBds f p.1 p.2 || tabGet t p.1 p.2

/-- One `cv2.dilate` step with the 5×5 kernel: a pixel becomes foreground
iff some in-bounds window pixel is foreground (out-of-image pixels count
as background for dilation). -/
def dilateFn (f : Frame) (t : Tab) (x y : ℤ) : Bool :=
  inBds f x y && (win2 x y).any fun p => inBds f p.1 p.2 && tabGet t p.1 p.2

/-- Materialised erosion. -/
def erodeTab (f : Frame) (t : Tab) : Tab := tabulate f.h f.w (erodeFn f t)

/-- Materialised dilation. -/
def dilateTab (f : Frame) (t : Tab) : Tab := tabulate f.h f.w (dilateFn f t)

/-- `cv2.morphologyEx(-, cv2.MORPH_OPEN, kernel, iterations=2)` (source
line 76): two erosions followed by two dilations. -/
def openTab (f : Frame) (t : Tab) : Tab :=
  dilateTab f (dilateTab f (erodeTab f (erodeTab f t)))

/-- `cv2.morphologyEx(-, cv2.MORPH_CLOSE, kernel, iterations=3)` (source
line 68): three dilations followed by three erosions. -/
def closeTab3 (f : Frame) (t : Tab) : Tab :=
  erodeTab f (erodeTab f (erodeTab f
    (dilateTab f (dilateTab f (dilateTab f t)))))

/-- All in-bounds coordinates in row-major order. -/
def allCoords (f : Frame) : List (ℤ × ℤ) :=
  (List.range f.h).flatMap fun (y : ℕ) => (List.range f.w).map fun (x : ℕ) => ((x : ℤ), (y : ℤ))

/-- The foreground pixels of a binary image, row-major. -/
def fgList (f : Frame) (t : Tab) : List (ℤ × ℤ) :=
  (allCoords f).filter fun p => tabGet t p.1 p.2

/-- 8-adjacency of two distinct pixels, the connectivity `cv2.findContours`
uses for foreground. -/
def neigh8 (p q : ℤ × ℤ) : Bool :=
  decide (¬p = q ∧ (p.1 - q.1).natAbs ≤ 1 ∧ (p.2 - q.2).natAbs ≤ 1)

/-- Add one pixel to a partial component decomposition: the components it
touches (8-adjacently) are merged with it, the others are kept. -/
def insertPx (cs : List (List (ℤ × ℤ))) (p : ℤ × ℤ) : List (List (ℤ × ℤ)) :=
  let adj := cs.filter fun c => c.any fun q => neigh8 p q
  let rest := cs.filter fun c => !c.any fun q => neigh8 p q
  rest ++ [adj.flatten ++ [p]]

/-- Model of `cv2.findContours(-, RETR_EXTERNAL, CHAIN_APPROX_SIMPLE)`:
the 8-connected foreground components, one list of pixels each, obtained
by a row-major scan merging on contact.  The resulting list order is a
fixed deterministic traversal order; no claim below depends on it. -/
def comps (f : Frame) (t : Tab) : List (List (ℤ × ℤ)) :=
  (fgList f t).foldl insertPx []

/-- Primitive natural minimum, written out to keep kernel evaluation of
the distance scan cheap. -/
def nmin (a b : ℕ) : ℕ := if a ≤ b then a else b

/-- Primitive natural maximum. -/
def nmax (a b : ℕ) : ℕ := if a ≤ b then b else a

/-- The 5×5 chamfer metric of `cv2.distanceTransform(-, cv2.DIST_L2, 5)`
between two pixels, with the documented weights a=1, b=1.4, c=2.1969 for
axial, diagonal and knight moves, scaled by 10000 into naturals. -/
def chamfer (p q : ℤ × ℤ) : ℕ :=
  let dx := (p.1 - q.1).natAbs
  let dy := (p.2 - q.2).natAbs
  let dM := nmax dx dy
  let dm := nmin dx dy
  if 2 * dm ≤ dM then 21969 * dm + 10000 * (dM - 2 * dm)
  else 21969 * (dM - dm) + 14000 * (2 * dm - dM)

/-- Initialisation value of the distance scan: kept when the image has no
background pixel at all. -/
def distINF : ℕ := 1000000000

/-- The background pixels of a binary image. -/
def bgList (f : Frame) (t : Tab) : List (ℤ × ℤ) :=
  (allCoords f).filter fun p => !tabGet t p.1 p.2

/-- `dist_transform = cv2.distanceTransform(opening, cv2.DIST_L2, 5)`
(source line 79): 0 on background, else the minimum chamfer distance to a
background pixel. -/
def distAt (f : Frame) (t : Tab) (p : ℤ × ℤ) : ℕ :=
  if tabGet t p.1 p.2 then (bgList f t).foldl (fun m q => nmin m (chamfer p q)) distINF
  else 0

/-- The materialised distance field, the `dist_transform` array of the
source. -/
def distTab (f : Frame) (t : Tab) : List (List ℕ) :=
  (List.range f.h).map fun (y : ℕ) =>
    (List.range f.w).map fun (x : ℕ) => distAt f t ((x : ℤ), (y : ℤ))

/-- Read the materialised distance field (0 out of range). -/
def distTabGet (d : List (List ℕ)) (x y : ℤ) : ℕ :=
  if 0 ≤ x ∧ 0 ≤ y then ((d[y.toNat]?.getD [])[x.toNat]?).getD 0 else 0

/-- `dist_transform.max()` over the materialised field. -/
def maxDistT (d : List (List ℕ)) : ℕ :=
  (d.map fun row => row.foldl nmax 0).foldl nmax 0

/-- `_, sure_fg = cv2.threshold(dist_transform, sep_force * dist_transform.max(), 255, 0)`
(source lines 80–81): THRESH_BINARY keeps exactly the pixels whose
distance strictly exceeds `tau * max`.  The comparison
`tau·max < dist` on the rational `tau = num/den` is written in the exact
cross-multiplied integer form `num·max < dist·den` (`den > 0`). -/
def sureTabOf (f : Frame) (tau : ℚ) (t : Tab) : Tab :=
  tabulate f.h f.w fun x y =>
    inBds f x y &&
      decide (tau.num * (maxDistT (distTab f t) : ℤ) <
        (distTabGet (distTab f t) x y : ℤ) * (tau.den : ℤ))

/-- 4-adjacency, the background connectivity used to delimit the region a
filled outer contour covers. -/
def neigh4 (p q : ℤ × ℤ) : Bool :=
  decide ((p.1 = q.1 ∧ (p.2 - q.2).natAbs = 1) ∨ (p.2 = q.2 ∧ (p.1 - q.1).natAbs = 1))

/-- Border pixels of the frame. -/
def isBorder (f : Frame) (p : ℤ × ℤ) : Bool :=
  decide (p.1 = 0 ∨ p.1 = (f.w : ℤ) - 1 ∨ p.2 = 0 ∨ p.2 = (f.h : ℤ) - 1)

/-- One expansion round of border-reachability through non-component
pixels. -/
def reachStep (f : Frame) (c : List (ℤ × ℤ)) (r : List (ℤ × ℤ)) : List (ℤ × ℤ) :=
  (allCoords f).filter fun p =>
    !decide (p ∈ c) && (decide (p ∈ r) || r.any fun q => neigh4 p q)

/-- The pixels that can reach the image border by a 4-connected path that
avoids the component `c`. -/
def reachOutside (f : Frame) (c : List (ℤ × ℤ)) : List (ℤ × ℤ) :=
  (reachStep f c)^[f.h * f.w] ((allCoords f).filter fun p => isBorder f p && !decide (p ∈ c))

/-- `cv2.drawContours(thresh, [c], 0, 255, -1)` (source line 73): paint
white the whole region enclosed by the outer contour of `c` — the
component and every pixel that cannot reach the border around it. -/
def fillCmd (f : Frame) (t : Tab) (c : List (ℤ × ℤ)) : Tab :=
  tabulate f.h f.w fun x y => tabGet t x y || !decide ((x, y) ∈ reachOutside f c)

/-- The advanced hole-filling loop (source lines 71–73): contours are found
once on the closed image and then each is painted filled into it. -/
def fillStage (f : Frame) (t : Tab) : Tab :=
  (comps f t).foldl (fillCmd f) t

/-- The binarised image after step 2 of the source. -/
def threshTabOf (f : Frame) (cfg : Config) : Tab :=
  tabulate f.h f.w (threshFn f cfg)

/-- `thresh` after the optional `fill_holes` branch (source lines 67–73):
closing with 3 iterations followed by contour filling, or unchanged. -/
def filledTabOf (f : Frame) (cfg : Config) : Tab :=
  if cfg.fill_holes then fillStage f (closeTab3 f (threshTabOf f cfg))
  else threshTabOf f cfg

/-- `opening` (source line 76). -/
def openTabOf (f : Frame) (cfg : Config) : Tab :=
  openTab f (filledTabOf f cfg)

/-- `sure_fg` (source lines 79–81). -/
def sureTabPipe (f : Frame) (cfg : Config) : Tab :=
  sureTabOf f cfg.sep_force (openTabOf f cfg)

/-- `cnts` (source line 84). -/
def cntsOf (f : Frame) (cfg : Config) : List (List (ℤ × ℤ)) :=
  comps f (sureTabPipe f cfg)

/-- The annotation calls of the counting loop, recorded with the exact
arguments the source computes: `cv2.circle(output_img, (cX, cY), 10, ...)`,
`cv2.putText(output_img, str(count), (cX-10, cY-15), ...)` and
`cv2.rectangle(output_img, (x, y), (x+w, y+h), ...)`. -/
inductive DrawCmd where
  | marker (x y : ℤ)
  | textLabel (n : ℕ) (x y : ℤ)
  | box (x y bw bh : ℤ)
deriving DecidableEq

/-- The mutable state of the counting loop (source lines 86–104): the
decoded frame `img`, the private copy `output_img = img.copy()` with its
accumulated drawing calls, and `count`.  Every drawing call targets the
copy; nothing in the loop writes to `orig`. -/
structure DrawState where
  orig : Frame
  outBase : Frame
  anns : List DrawCmd
  count : ℕ

/-- `cv2.contourArea` on a component, modelled as its pixel count. -/
def contourAreaR (c : List (ℤ × ℤ)) : ℕ := c.length

/-- `cv2.moments(c)["m00"]` on a component, modelled as its pixel count. -/
def m00R (c : List (ℤ × ℤ)) : ℕ := c.length

/-- `cv2.moments(c)["m10"]` on a component: sum of x coordinates. -/
def m10R (c : List (ℤ × ℤ)) : ℤ := (c.map fun p => p.1).sum

/-- `cv2.moments(c)["m01"]` on a component: sum of y coordinates. -/
def m01R (c : List (ℤ × ℤ)) : ℤ := (c.map fun p => p.2).sum

/-- Minimum of an integer list (0 for the empty list, never consumed). -/
def listMinI (l : List ℤ) : ℤ := l.foldl min (l.headD 0)

/-- Maximum of an integer list. -/
def listMaxI (l : List ℤ) : ℤ := l.foldl max (l.headD 0)

/-- One iteration of the counting loop (source lines 89–104): skip the
contour when `contourArea < min_area`; otherwise increment `count`, and
when `m00 ≠ 0` draw the centroid marker at `(int(m10/m00), int(m01/m00))`,
the running-count text at `(cX-10, cY-15)` and the bounding box of
`cv2.boundingRect`. -/
def drawStep (cfg : Config) (s : DrawState) (c : List (ℤ × ℤ)) : DrawState :=
  if contourAreaR c < cfg.min_area then s
  else
    let cnt := s.count + 1
    if m00R c = 0 then ⟨s.orig, s.outBase, s.anns, cnt⟩
    else
      let cX := m10R c / (m00R c : ℤ)
      let cY := m01R c / (m00R c : ℤ)
      let bx := listMinI (c.map fun p => p.1)
      let bY := listMinI (c.map fun p => p.2)
      let bw := listMaxI (c.map fun p => p.1) - bx + 1
      let bh := listMaxI (c.map fun p => p.2) - bY + 1
      ⟨s.orig, s.outBase,
        s.anns ++ [DrawCmd.marker cX cY, DrawCmd.textLabel cnt (cX - 10) (cY - 15),
          DrawCmd.box bx bY bw bh], cnt⟩

/-- The whole counting loop as a fold over the contour list. -/
def drawLoop (cfg : Config) (s : DrawState) (l : List (List (ℤ × ℤ))) : DrawState :=
  l.foldl (drawStep cfg) s

/-- The loop state after processing every contour, starting from
`count = 0` and `output_img = img.copy()`. -/
def finalState (f : Frame) (cfg : Config) : DrawState :=
  drawLoop cfg ⟨f, f, [], 0⟩ (cntsOf f cfg)

/-- Possible aborts of an invocation.  `decodeError` models the exception
raised at `img.shape` when `cv2.imdecode` returns `None` for an
undecodable buffer; `configurationError` is the configuration rejection
the specification postulates (the source never raises it). -/
inductive PipeError where
  | decodeError
  | configurationError
deriving DecidableEq

/-- The returned tuple `(count, output_img, masked_img, thresh, sure_fg)`
(source line 106): the count, the annotated copy (base frame plus drawing
calls), the masked image, the post-fill binary image and the counting
core. -/
structure PipeResult where
  count : ℕ
  anns : List DrawCmd
  annBase : Frame
  maskedOf : ℤ → ℤ → Px
  threshTab : Tab
  sureTab : Tab

/-- `process_image` on an already-decoded frame. -/
def processFrame (f : Frame) (cfg : Config) : PipeResult :=
  ⟨(finalState f cfg).count, (finalState f cfg).anns, (finalState f cfg).outBase,
    maskedPx f cfg, filledTabOf f cfg, sureTabPipe f cfg⟩

/-- `process_image` (source lines 40–106) as a function of the decode
result and the slider configuration: an undecodable buffer aborts the
invocation with no partial result, otherwise the pipeline runs to
completion. -/
def processImage (decoded : Option Frame) (cfg : Config) : Except PipeError PipeResult :=
  match decoded with
  | none => Except.error PipeError.decodeError
  | some f => Except.ok (processFrame f cfg)

/-- The cyclic cross-product sum both `cv2.contourArea` and
`cv2.moments` accumulate over a contour polygon (Green's formula). -/
def crossSum (pts : List (ℤ × ℤ)) : ℤ :=
  ((pts.zip (pts.rotate 1)).map fun e => e.1.1 * e.2.2 - e.2.1 * e.1.2).sum

/-- `cv2.contourArea(pts)`: half the absolute cyclic cross sum. -/
def contourAreaG (pts : List (ℤ × ℤ)) : ℚ := |(crossSum pts : ℚ)| / 2

/-- `cv2.moments(pts)["m00"]` for a point-set contour: the OpenCV kernel
accumulates the same cross sum and multiplies by ±1/2 according to its
sign, so the stored `m00` is nonnegative. -/
def m00G (pts : List (ℤ × ℤ)) : ℚ :=
  if (crossSum pts : ℚ) < 0 then (crossSum pts : ℚ) * (-1 / 2)
  else (crossSum pts : ℚ) * (1 / 2)

/-!  Indexing lemmas for materialised grids. -/

theorem tabGet_tabulate (h w : ℕ) (g : ℤ → ℤ → Bool) (x y : ℤ) :
    tabGet (tabulate h w g) x y =
      if 0 ≤ x ∧ x < (w : ℤ) ∧ 0 ≤ y ∧ y < (h : ℤ) then g x y else false := by
  unfold tabGet tabulate
  by_cases hx0 : 0 ≤ x
  · by_cases hy0 : 0 ≤ y
    · rw [if_pos ⟨hx0, hy0⟩]
      by_cases hyh : y.toNat < h
      · rw [List.getElem?_map, List.getElem?_range hyh, Option.map_some', Option.getD_some,
          List.getElem?_map]
        by_cases hxw : x.toNat < w
        · rw [List.getElem?_range hxw, Option.map_some', Option.getD_some,
            Int.toNat_of_nonneg hx0, Int.toNat_of_nonneg hy0,
            if_pos ⟨hx0, by omega, hy0, by omega⟩]
        · rw [List.getElem?_eq_none (by simpa using Nat.le_of_not_lt hxw),
            Option.map_none', Option.getD_none, if_neg (by omega)]
      · have hnone :
            ((List.range h).map fun (y : ℕ) =>
              (List.range w).map fun (x : ℕ) => g (x : ℤ) (y : ℤ))[y.toNat]? = none :=
          List.getElem?_eq_none (by simpa using Nat.le_of_not_lt hyh)
        rw [hnone, Option.getD_none, List.getElem?_nil, Option.getD_none, if_neg (by omega)]
    · rw [if_neg (by exact fun hc => hy0 hc.2), if_neg (by omega)]
  · rw [if_neg (by exact fun hc => hx0 hc.1), if_neg (by omega)]

theorem distTabGet_distTab (f : Frame) (t : Tab) (x y : ℤ) :
    distTabGet (distTab f t) x y =
      if 0 ≤ x ∧ x < (f.w : ℤ) ∧ 0 ≤ y ∧ y < (f.h : ℤ) then distAt f t (x, y) else 0 := by
  unfold distTabGet distTab
  by_cases hx0 : 0 ≤ x
  · by_cases hy0 : 0 ≤ y
    · rw [if_pos ⟨hx0, hy0⟩]
      by_cases hyh : y.toNat < f.h
      · rw [List.getElem?_map, List.getElem?_range hyh, Option.map_some', Option.getD_some,
          List.getElem?_map]
        by_cases hxw : x.toNat < f.w
        · rw [List.getElem?_range hxw, Option.map_some', Option.getD_some,
            Int.toNat_of_nonneg hx0, Int.toNat_of_nonneg hy0,
            if_pos ⟨hx0, by omega, hy0, by omega⟩]
        · rw [List.getElem?_eq_none (by simpa using Nat.le_of_not_lt hxw),
            Option.map_none', Option.getD_none, if_neg (by omega)]
      · have hnone :
            ((List.range f.h).map fun (y : ℕ) =>
              (List.range f.w).map fun (x : ℕ) => distAt f t ((x : ℤ), (y : ℤ)))[y.toNat]? =
              none :=
          List.getElem?_eq_none (by simpa using Nat.le_of_not_lt hyh)
        rw [hnone, Option.getD_none, List.getElem?_nil, Option.getD_none, if_neg (by omega)]
    · rw [if_neg (by exact fun hc => hy0 hc.2), if_neg (by omega)]
  · rw [if_neg (by exact fun hc => hx0 hc.1), if_neg (by omega)]

theorem mem_win2 {x y u v : ℤ} :
    ((u, v) ∈ win2 x y) ↔ x - 2 ≤ u ∧ u ≤ x + 2 ∧ y - 2 ≤ v ∧ v ≤ y + 2 := by
  unfold win2
  simp only [List.mem_flatMap, List.mem_map, List.mem_range, Prod.mk.injEq]
  constructor
  · rintro ⟨i, hi, j, hj, hu, hv⟩
    omega
  · rintro ⟨h1, h2, h3, h4⟩
    exact ⟨(u - x + 2).toNat, by omega, ⟨(v - y + 2).toNat, by omega, by omega, by omega⟩⟩

/-!  Elimination lemmas for one morphological step, and anti-extensivity
of the opening. -/

theorem dilateTab_true (f : Frame) (t : Tab) {x y : ℤ}
    (hd : tabGet (dilateTab f t) x y = true) :
    inBds f x y = true ∧ ∃ u v, inBds f u v = true ∧
      x - 2 ≤ u ∧ u ≤ x + 2 ∧ y - 2 ≤ v ∧ v ≤ y + 2 ∧ tabGet t u v = true := by
  unfold dilateTab at hd
  rw [tabGet_tabulate] at hd
  by_cases hb : 0 ≤ x ∧ x < (f.w : ℤ) ∧ 0 ≤ y ∧ y < (f.h : ℤ)
  · rw [if_pos hb] at hd
    unfold dilateFn at hd
    rw [Bool.and_eq_true] at hd
    obtain ⟨hbds, hany⟩ := hd
    obtain ⟨⟨u, v⟩, hmem, hp⟩ := List.any_eq_true.1 hany
    rw [Bool.and_eq_true] at hp
    obtain ⟨h1, h2, h3, h4⟩ := mem_win2.1 hmem
    exact ⟨hbds, u, v, hp.1, h1, h2, h3, h4, hp.2⟩
  · rw [if_neg hb] at hd
    exact absurd hd (by simp)

theorem erodeTab_true (f : Frame) (t : Tab) {x y : ℤ}
    (he : tabGet (erodeTab f t) x y = true) :
    inBds f x y = true ∧ ∀ u v, inBds f u v = true →
      x - 2 ≤ u → u ≤ x + 2 → y - 2 ≤ v → v ≤ y + 2 → tabGet t u v = true := by
  unfold erodeTab at he
  rw [tabGet_tabulate] at he
  by_cases hb : 0 ≤ x ∧ x < (f.w : ℤ) ∧ 0 ≤ y ∧ y < (f.h : ℤ)
  · rw [if_pos hb] at he
    unfold erodeFn at he
    rw [Bool.and_eq_true] at he
    refine ⟨he.1, fun u v hbu h1 h2 h3 h4 => ?_⟩
    have := List.all_eq_true.1 he.2 (u, v) (mem_win2.2 ⟨h1, h2, h3, h4⟩)
    rw [Bool.or_eq_true, Bool.not_eq_true'] at this
    rcases this with hcon | hok
    · rw [hbu] at hcon
      exact absurd hcon (by simp)
    · exact hok
  · rw [if_neg hb] at he
    exact absurd he (by simp)

theorem openTab_subset (f : Frame) (t : Tab) {x y : ℤ}
    (ho : tabGet (openTab f t) x y = true) : tabGet t x y = true := by
  unfold openTab at ho
  obtain ⟨hb, u1, v1, hb1, hu1a, hu1b, hv1a, hv1b, h1⟩ := dilateTab_true f _ ho
  obtain ⟨-, u2, v2, hb2, hu2a, hu2b, hv2a, hv2b, h2⟩ := dilateTab_true f _ h1
  obtain ⟨-, hall2⟩ := erodeTab_true f _ h2
  have h3 := hall2 u1 v1 hb1 (by omega) (by omega) (by omega) (by omega)
  obtain ⟨-, hall1⟩ := erodeTab_true f _ h3
  exact hall1 x y hb (by omega) (by omega) (by omega) (by omega)

/-!  An empty binary map stays empty through every later stage, so the
pipeline counts nothing. -/

theorem tabGet_tabulate_false (h w : ℕ) (g : ℤ → ℤ → Bool)
    (hg : ∀ x y, g x y = false) (x y : ℤ) : tabGet (tabulate h w g) x y = false := by
  rw [tabGet_tabulate]
  split
  · exact hg x y
  · rfl

theorem erodeFn_false (f : Frame) (t : Tab)
    (ht : ∀ x y, tabGet t x y = false) (x y : ℤ) : erodeFn f t x y = false := by
  unfold erodeFn
  cases hb : inBds f x y
  · exact Bool.false_and _
  · rw [Bool.true_and]
    cases hall : (win2 x y).all fun p => !inBds f p.1 p.2 || tabGet t p.1 p.2
    · rfl
    · exfalso
      have hx := List.all_eq_true.1 hall (x, y) (mem_win2.2 (by omega))
      simp only [ht, hb] at hx
      exact absurd hx (by simp)
  -- the pixel itself is in its own window, in bounds, and background

theorem dilateFn_false (f : Frame) (t : Tab)
    (ht : ∀ x y, tabGet t x y = false) (x y : ℤ) : dilateFn f t x y = false := by
  unfold dilateFn
  cases hany : (win2 x y).any fun p => inBds f p.1 p.2 && tabGet t p.1 p.2
  · exact Bool.and_false _
  · exfalso
    obtain ⟨p, hp, hpt⟩ := List.any_eq_true.1 hany
    rw [Bool.and_eq_true, ht p.1 p.2] at hpt
    exact absurd hpt.2 (by simp)

theorem erodeTab_false (f : Frame) (t : Tab) (ht : ∀ x y, tabGet t x y = false) :
    ∀ x y, tabGet (erodeTab f t) x y = false :=
  tabGet_tabulate_false _ _ _ (erodeFn_false f t ht)

theorem dilateTab_false (f : Frame) (t : Tab) (ht : ∀ x y, tabGet t x y = false) :
    ∀ x y, tabGet (dilateTab f t) x y = false :=
  tabGet_tabulate_false _ _ _ (dilateFn_false f t ht)

theorem closeTab3_false (f : Frame) (t : Tab) (ht : ∀ x y, tabGet t x y = false) :
    ∀ x y, tabGet (closeTab3 f t) x y = false := by
  unfold closeTab3
  exact erodeTab_false _ _ (erodeTab_false _ _ (erodeTab_false _ _
    (dilateTab_false _ _ (dilateTab_false _ _ (dilateTab_false _ _ ht)))))

theorem fgList_nil (f : Frame) (t : Tab) (ht : ∀ x y, tabGet t x y = false) :
    fgList f t = [] := by
  unfold fgList
  refine List.filter_eq_nil_iff.2 fun p _ => ?_
  rw [ht p.1 p.2]
  simp

theorem comps_nil (f : Frame) (t : Tab) (ht : ∀ x y, tabGet t x y = false) :
    comps f t = [] := by
  unfold comps
  rw [fgList_nil f t ht]
  rfl

theorem fillStage_of_empty (f : Frame) (t : Tab) (ht : ∀ x y, tabGet t x y = false) :
    fillStage f t = t := by
  unfold fillStage
  rw [comps_nil f t ht]
  rfl

theorem filledTab_false (f : Frame) (cfg : Config)
    (hthr : ∀ x y, threshFn f cfg x y = false) :
    ∀ x y, tabGet (filledTabOf f cfg) x y = false := by
  have h0 : ∀ x y, tabGet (threshTabOf f cfg) x y = false :=
    tabGet_tabulate_false _ _ _ hthr
  intro x y
  unfold filledTabOf
  cases hf : cfg.fill_holes
  · simpa using h0 x y
  · have h1 := closeTab3_false f _ h0
    simp only [if_true]
    rw [fillStage_of_empty f _ h1]
    exact h1 x y

theorem distAt_zero (f : Frame) (t : Tab) (ht : ∀ x y : ℤ, tabGet t x y = false)
    (p : ℤ × ℤ) : distAt f t p = 0 := by
  unfold distAt
  rw [ht p.1 p.2]
  rfl

theorem distTabGet_zero (f : Frame) (t : Tab) (ht : ∀ x y : ℤ, tabGet t x y = false)
    (x y : ℤ) : distTabGet (distTab f t) x y = 0 := by
  rw [distTabGet_distTab]
  split
  · exact distAt_zero f t ht _
  · rfl

theorem foldl_nmax_zero (l : List ℕ) (hl : ∀ a ∈ l, a = 0) : l.foldl nmax 0 = 0 := by
  induction l with
  | nil => rfl
  | cons a l ih =>
    rw [List.foldl_cons, hl a (List.mem_cons_self a l)]
    exact ih fun b hb => hl b (List.mem_cons_of_mem a hb)

theorem maxDistT_zero (f : Frame) (t : Tab) (ht : ∀ x y : ℤ, tabGet t x y = false) :
    maxDistT (distTab f t) = 0 := by
  unfold maxDistT
  refine foldl_nmax_zero _ fun a ha => ?_
  obtain ⟨row, hrow, rfl⟩ := List.mem_map.1 ha
  refine foldl_nmax_zero _ fun v hv => ?_
  unfold distTab at hrow
  obtain ⟨yy, hyy, rfl⟩ := List.mem_map.1 hrow
  obtain ⟨xx, hxx, rfl⟩ := List.mem_map.1 hv
  exact distAt_zero f t ht _

theorem sureTab_false (f : Frame) (tau : ℚ) (t : Tab)
    (ht : ∀ x y : ℤ, tabGet t x y = false) :
    ∀ x y, tabGet (sureTabOf f tau t) x y = false := by
  intro x y
  unfold sureTabOf
  rw [tabGet_tabulate]
  split
  · rw [distTabGet_zero f t ht, maxDistT_zero f t ht]
    simp
  · rfl

theorem count_zero_engine (f : Frame) (cfg : Config)
    (hthr : ∀ x y : ℤ, threshFn f cfg x y = false) :
    (processFrame f cfg).count = 0 := by
  have h1 := filledTab_false f cfg hthr
  have h2 : ∀ x y : ℤ, tabGet (openTabOf f cfg) x y = false := by
    unfold openTabOf openTab
    exact dilateTab_false _ _ (dilateTab_false _ _ (erodeTab_false _ _ (erodeTab_false _ _ h1)))
  have h3 : ∀ x y : ℤ, tabGet (sureTabPipe f cfg) x y = false := by
    unfold sureTabPipe
    exact sureTab_false _ _ _ h2
  show (finalState f cfg).count = 0
  unfold finalState cntsOf
  rw [comps_nil _ _ h3]
  rfl

/-!  Raising the separation fraction shrinks the thresholded set pixel by
pixel (the superlevel set of the distance field is antitone in the
threshold). -/

theorem sure_antitone (f : Frame) (t : Tab) (t1 t2 : ℚ) (_h0 : 0 ≤ t1) (h12 : t1 ≤ t2)
    (x y : ℤ) (hs : tabGet (sureTabOf f t2 t) x y = true) :
    tabGet (sureTabOf f t1 t) x y = true := by
  unfold sureTabOf at hs ⊢
  rw [tabGet_tabulate] at hs ⊢
  by_cases hb : 0 ≤ x ∧ x < (f.w : ℤ) ∧ 0 ≤ y ∧ y < (f.h : ℤ)
  · rw [if_pos hb] at hs ⊢
    rw [Bool.and_eq_true, decide_eq_true_eq] at hs
    rw [Bool.and_eq_true, decide_eq_true_eq]
    refine ⟨hs.1, ?_⟩
    have hlt := hs.2
    set M : ℤ := (maxDistT (distTab f t) : ℤ) with hM
    set D : ℤ := (distTabGet (distTab f t) x y : ℤ) with hD
    have hM0 : (0 : ℤ) ≤ M := Int.natCast_nonneg _
    have hd1 : (0 : ℤ) < (t1.den : ℤ) := by exact_mod_cast t1.pos
    have hd2 : (0 : ℤ) < (t2.den : ℤ) := by exact_mod_cast t2.pos
    have hle : t1.num * (t2.den : ℤ) ≤ t2.num * (t1.den : ℤ) := Rat.le_def.1 h12
    have k1 : t1.num * (t2.den : ℤ) * M ≤ t2.num * (t1.den : ℤ) * M :=
      mul_le_mul_of_nonneg_right hle hM0
    have k2 : t2.num * M * (t1.den : ℤ) < D * (t2.den : ℤ) * (t1.den : ℤ) :=
      mul_lt_mul_of_pos_right hlt hd1
    have k3 : t1.num * M * (t2.den : ℤ) < D * (t1.den : ℤ) * (t2.den : ℤ) := by nlinarith
    exact lt_of_mul_lt_mul_right k3 (le_of_lt hd2)
  · rw [if_neg hb] at hs
    exact absurd hs (by simp)

/-!  Under a configuration whose HSV range rejects pure black and with
hole filling off, every pixel of the counting core lies inside the
circular mask: the mask blacks out everything outside the circle, black
pixels stay background through `inRange`, opening is anti-extensive, and
a pixel with positive distance is foreground. -/

theorem sure_pipe_in_mask (f : Frame) (cfg : Config)
    (hf : cfg.fill_holes = false) (hsep : 0 ≤ cfg.sep_force)
    (hblack : hsvInRange cfg (hsvOf (0, 0, 0)) = false)
    (x y : ℤ) (hs : tabGet (sureTabPipe f cfg) x y = true) :
    maskBit f cfg x y = true := by
  unfold sureTabPipe sureTabOf at hs
  rw [tabGet_tabulate] at hs
  by_cases hb : 0 ≤ x ∧ x < (f.w : ℤ) ∧ 0 ≤ y ∧ y < (f.h : ℤ)
  case neg => rw [if_neg hb] at hs; exact absurd hs (by simp)
  rw [if_pos hb, Bool.and_eq_true, decide_eq_true_eq] at hs
  have hnum : 0 ≤ cfg.sep_force.num := Rat.num_nonneg.2 hsep
  have hM0 : (0 : ℤ) ≤ (maxDistT (distTab f (openTabOf f cfg)) : ℤ) := Int.natCast_nonneg _
  have hD : 0 < distTabGet (distTab f (openTabOf f cfg)) x y := by
    rcases Nat.eq_zero_or_pos (distTabGet (distTab f (openTabOf f cfg)) x y) with h0 | hpos
    · exfalso
      rw [h0] at hs
      have := hs.2
      simp only [Nat.cast_zero, zero_mul] at this
      exact absurd this (not_lt.2 (mul_nonneg hnum hM0))
    · exact hpos
  have hopen : tabGet (openTabOf f cfg) x y = true := by
    rw [distTabGet_distTab, if_pos hb] at hD
    by_contra hno
    rw [Bool.not_eq_true] at hno
    unfold distAt at hD
    simp only [hno] at hD
    exact absurd hD (by simp)
  have hthr : tabGet (threshTabOf f cfg) x y = true := by
    have hsub := openTab_subset f (filledTabOf f cfg) (by rwa [openTabOf] at hopen)
    rwa [filledTabOf, hf, if_neg (by simp)] at hsub
  rw [threshTabOf, tabGet_tabulate, if_pos hb] at hthr
  unfold threshFn at hthr
  rw [Bool.and_eq_true] at hthr
  by_contra hmb
  rw [Bool.not_eq_true] at hmb
  have hmz : maskedPx f cfg x y = (0, 0, 0) := by
    unfold maskedPx
    rw [hmb]
    simp
  rw [hmz, hblack] at hthr
  exact absurd hthr.2 (by simp)

/-!  The counting loop: the original decoded frame is never written, and
every counted contour also receives its text label whenever the minimum
area is positive (since the modelled `m00` equals the modelled area). -/

theorem drawStep_orig (cfg : Config) (s : DrawState) (c : List (ℤ × ℤ)) :
    (drawStep cfg s c).orig = s.orig := by
  unfold drawStep
  split
  · rfl
  · split <;> rfl

theorem drawLoop_orig (cfg : Config) (l : List (List (ℤ × ℤ))) (s : DrawState) :
    (drawLoop cfg s l).orig = s.orig := by
  induction l generalizing s with
  | nil => rfl
  | cons c l ih =>
    show (drawLoop cfg (drawStep cfg s c) l).orig = s.orig
    rw [ih (drawStep cfg s c), drawStep_orig]

/-- Whether a drawing command is a `putText` label call. -/
def isTextLabel : DrawCmd → Bool
  | DrawCmd.textLabel _ _ _ => true
  | _ => false

/-- The number of `putText` label calls among the recorded drawing
commands. -/
def labelCount (l : List DrawCmd) : ℕ := (l.filter isTextLabel).length

theorem drawStep_labels (cfg : Config) (hmin : 1 ≤ cfg.min_area)
    (s : DrawState) (c : List (ℤ × ℤ)) :
    labelCount (drawStep cfg s c).anns + s.count =
      labelCount s.anns + (drawStep cfg s c).count := by
  unfold drawStep
  split
  · rfl
  · case isFalse harea =>
    have hm : ¬ m00R c = 0 := by
      unfold contourAreaR at harea
      unfold m00R
      omega
    rw [if_neg hm]
    show labelCount (s.anns ++ [DrawCmd.marker _ _, DrawCmd.textLabel _ _ _,
      DrawCmd.box _ _ _ _]) + s.count = labelCount s.anns + (s.count + 1)
    unfold labelCount
    rw [List.filter_append, List.length_append]
    simp [isTextLabel]
    omega

theorem drawLoop_labels (cfg : Config) (hmin : 1 ≤ cfg.min_area)
    (l : List (List (ℤ × ℤ))) (s : DrawState) :
    labelCount (drawLoop cfg s l).anns + s.count =
      labelCount s.anns + (drawLoop cfg s l).count := by
  induction l generalizing s with
  | nil => rfl
  | cons c l ih =>
    show labelCount (drawLoop cfg (drawStep cfg s c) l).anns + s.count =
      labelCount s.anns + (drawLoop cfg (drawStep cfg s c) l).count
    have h1 := ih (drawStep cfg s c)
    have h2 := drawStep_labels cfg hmin s c
    omega

/-!  The polygon-level `contourArea` and `m00` of OpenCV agree: both halve
the absolute value of the same Green cross sum. -/

theorem m00G_eq_contourAreaG (pts : List (ℤ × ℤ)) : m00G pts = contourAreaG pts := by
  unfold m00G contourAreaG
  split
  · case isTrue hlt => rw [abs_of_neg hlt]; ring
  · case isFalse hge => rw [abs_of_nonneg (le_of_not_lt hge)]; ring

/-!  Concrete frames, configurations and binary maps for the
counterexamples and witnesses.  Every slider value used lies inside the
range the source UI offers (`mask_radius` 0.1–1.0, H 0–179, S/V 0–255,
`min_area` 10–500, `sep_force` 0.0–1.0), except `cfg0`, which models the
degenerate `region.extent = 0` configuration of claim C5. -/

/-- An all-white frame of the given size. -/
def whiteFrame (h w : ℕ) : Frame := ⟨h, w, fun _ _ => (255, 255, 255)⟩

/-- A 5×5 all-white frame. -/
def frame5 : Frame := whiteFrame 5 5

/-- A 4×16 all-white frame. -/
def frameA : Frame := whiteFrame 4 16

/-- A 4×4 all-black frame. -/
def blackFrame4 : Frame := ⟨4, 4, fun _ _ => (0, 0, 0)⟩

/-- A 4×4 uniform dark-gray frame. -/
def grayFrame4 : Frame := ⟨4, 4, fun _ _ => (50, 50, 50)⟩

/-- Extent 1, default HSV bounds, hole filling off, minimum area 10,
separation 0.5. -/
def cfg12 : Config := ⟨1, 0, 179, 0, 100, 140, 255, false, 10, mkRat 1 2⟩

/-- Extent 1/2 with the fully-open HSV range (H 0–179, S 0–255, V 0–255),
which admits every pixel, pure black included — the configuration that
breaks mask dominance. -/
def cfgA : Config := ⟨mkRat 1 2, 0, 179, 0, 255, 0, 255, false, 10, mkRat 1 2⟩

/-- Default extent 0.85 with the fully-open HSV range, hole filling off,
minimum area 10. -/
def cfgFull : Config := ⟨mkRat 17 20, 0, 179, 0, 255, 0, 255, false, 10, mkRat 1 2⟩

/-- The degenerate extent-0 configuration of claim C5 (otherwise default
HSV bounds, hole filling off, minimum area 10). -/
def cfg0 : Config := ⟨0, 0, 179, 0, 100, 140, 255, false, 10, mkRat 1 2⟩

/-- The source's slider defaults: extent 0.85, H 0–179, S 0–100,
V 140–255, hole filling on, minimum area 150, separation 0.5. -/
def cfgDef : Config := ⟨mkRat 17 20, 0, 179, 0, 100, 140, 255, true, 150, mkRat 1 2⟩

/-- A 3×8 frame carrier for the separator-stage counterexample. -/
def frameC2 : Frame := ⟨3, 8, fun _ _ => (0, 0, 0)⟩

/-- A single connected dumbbell blob in the 3×8 grid: a 3×3 left lobe
touching the left/top/bottom borders (distance peak 31969 units at (0,1),
since the only background it sees is column 3), a one-pixel bridge at
(3,1), and a 3×3 right lobe (peak 20000 units in column 5). -/
def blobC2 : Tab := tabulate 3 8 fun x y =>
  decide (x ≤ 2 ∨ (x = 3 ∧ y = 1) ∨ (4 ≤ x ∧ x ≤ 6))

/-!  Claim C1 — mask dominance. -/

set_option maxHeartbeats 4000000 in
set_option maxRecDepth 200000 in
/-- C1 (counterexample): mask dominance fails on the code as stated.  The
source applies the circular mask only before binarisation and never
re-applies it afterwards.  With the fully-open HSV range (H 0–179,
S 0–255, V 0–255 — all reachable slider values) every pixel, the
mask-blackened ones included, is binarised as foreground: on an all-white
4×16 frame at extent 1/2 (trusted circle of radius 1 around (8,2)) the
whole frame becomes one detection whose centroid marker is drawn at
(7,1), outside the circle, and the counting core `sure_fg` holds
foreground at (0,0), also outside the circle. -/
theorem c1_mask_dominance_cex :
    (processFrame frameA cfgA).count = 1 ∧
      DrawCmd.marker 7 1 ∈ (processFrame frameA cfgA).anns ∧
      maskBit frameA cfgA 7 1 = false ∧
      tabGet (sureTabPipe frameA cfgA) 0 0 = true ∧
      maskBit frameA cfgA 0 0 = false := by
  decide

/-- C1 (amended): mask dominance holds only conditionally.  If the
configured HSV range rejects pure black (the value the mask writes
outside the circle) and hole filling is off, then no pixel outside the
trusted circle is foreground in the binary map that reaches counting
(`sure_fg`): binarisation keeps no masked-out pixel, opening is
anti-extensive, and thresholding the distance field keeps only opening
foreground. -/
theorem c1_mask_dominance_amended (f : Frame) (cfg : Config)
    (hf : cfg.fill_holes = false) (hsep : 0 ≤ cfg.sep_force)
    (hblack : hsvInRange cfg (hsvOf (0, 0, 0)) = false)
    (x y : ℤ) (hmb : maskBit f cfg x y = false) :
    tabGet (sureTabPipe f cfg) x y = false := by
  cases hs : tabGet (sureTabPipe f cfg) x y
  · rfl
  · exact absurd (sure_pipe_in_mask f cfg hf hsep hblack x y hs) (by rw [hmb]; simp)

/-- C1 (witness): the amended theorem applied to the 5×5 white frame with
the default (black-rejecting) HSV bounds at the corner (0,0), which lies
outside the mask: the counting core is background there. -/
theorem c1_mask_dominance_amended_witness :
    cfg12.fill_holes = false ∧ (0 : ℚ) ≤ cfg12.sep_force ∧
      hsvInRange cfg12 (hsvOf (0, 0, 0)) = false ∧
      maskBit frame5 cfg12 0 0 = false ∧
      tabGet (sureTabPipe frame5 cfg12) 0 0 = false :=
  ⟨rfl, by decide, by decide, by decide,
    c1_mask_dominance_amended frame5 cfg12 rfl (by decide) (by decide) 0 0 (by decide)⟩

/-!  Claim C2 — monotonic separation. -/

set_option maxHeartbeats 4000000 in
set_option maxRecDepth 200000 in
/-- C2 (counterexample): raising `sep_force` can DECREASE the number of
candidate regions.  `blobC2` is a single connected blob whose distance
field has a tall peak (31969 units, left lobe) and a lower peak (20000
units, right lobe): at τ = 2/5 both peaks survive the threshold
(2 candidates), at τ = 7/10 only the tall one does (1 candidate). -/
theorem c2_monotonic_separation_cex :
    (comps frameC2 blobC2).length = 1 ∧
      (mkRat 2 5 : ℚ) < mkRat 7 10 ∧
      (comps frameC2 (sureTabOf frameC2 (mkRat 2 5) blobC2)).length = 2 ∧
      (comps frameC2 (sureTabOf frameC2 (mkRat 7 10) blobC2)).length = 1 := by
  decide

/-- C2 (amended): what is monotone is the thresholded set itself, not the
candidate count: for 0 ≤ τ₁ ≤ τ₂ every `sure_fg` pixel at τ₂ is a
`sure_fg` pixel at τ₁ (the superlevel set shrinks pointwise); a whole
region, and with it a candidate, can disappear, so the count may drop. -/
theorem c2_separation_superlevel_antitone (f : Frame) (t : Tab) (t1 t2 : ℚ)
    (h0 : 0 ≤ t1) (h12 : t1 ≤ t2) (x y : ℤ)
    (hs : tabGet (sureTabOf f t2 t) x y = true) :
    tabGet (sureTabOf f t1 t) x y = true :=
  sure_antitone f t t1 t2 h0 h12 x y hs

set_option maxHeartbeats 4000000 in
set_option maxRecDepth 200000 in
/-- C2 (witness): the amended theorem at the dumbbell blob, τ₁ = 2/5,
τ₂ = 7/10, pixel (0,1) (the tall peak). -/
theorem c2_separation_superlevel_antitone_witness :
    (0 : ℚ) ≤ mkRat 2 5 ∧ (mkRat 2 5 : ℚ) ≤ mkRat 7 10 ∧
      tabGet (sureTabOf frameC2 (mkRat 7 10) blobC2) 0 1 = true ∧
      tabGet (sureTabOf frameC2 (mkRat 2 5) blobC2) 0 1 = true := by
  have hs : tabGet (sureTabOf frameC2 (mkRat 7 10) blobC2) 0 1 = true := by decide
  exact ⟨by decide, by decide, hs,
    c2_separation_superlevel_antitone frameC2 blobC2 _ _ (by decide) (by decide) 0 1 hs⟩

/-!  Claim C3 — all-background boundary behaviour. -/

set_option maxHeartbeats 4000000 in
set_option maxRecDepth 200000 in
/-- C3 (counterexample): a uniform-intensity frame does NOT always yield
count 0.  The only binarisation the source has is the HSV range test, and
with the fully-open HSV range a uniform all-white 5×5 frame binarises
entirely as foreground; with no background pixel at all the distance
transform keeps its huge initialisation value everywhere, the threshold
keeps everything, and the whole frame is counted as one detection. -/
theorem c3_uniform_count_cex : (processFrame frame5 cfgFull).count = 1 := by
  decide

/-- C3 (amended): a uniform frame yields count 0 precisely when the
configured HSV range matches neither the uniform colour (the pixels
inside the mask) nor pure black (the pixels the mask zeroes): then the
binary map is empty and the pipeline counts nothing. -/
theorem c3_uniform_count_zero (f : Frame) (cfg : Config) (c : Px)
    (huni : ∀ x y : ℤ, f.px x y = c)
    (hc : hsvInRange cfg (hsvOf c) = false)
    (hb : hsvInRange cfg (hsvOf (0, 0, 0)) = false) :
    (processFrame f cfg).count = 0 := by
  apply count_zero_engine
  intro x y
  unfold threshFn
  have hsplit : maskedPx f cfg x y = f.px x y ∨ maskedPx f cfg x y = (0, 0, 0) := by
    unfold maskedPx
    split
    · exact Or.inl rfl
    · exact Or.inr rfl
  rcases hsplit with hm | hm <;> rw [hm]
  · rw [huni x y, hc, Bool.and_false]
  · rw [hb, Bool.and_false]

/-- C3 (witness): the amended theorem on a uniform dark-gray 4×4 frame
under the default configuration (V ≥ 140 rejects both gray value 50 and
black): count 0. -/
theorem c3_uniform_count_zero_witness :
    (∀ x y : ℤ, grayFrame4.px x y = (50, 50, 50)) ∧
      hsvInRange cfgDef (hsvOf (50, 50, 50)) = false ∧
      hsvInRange cfgDef (hsvOf (0, 0, 0)) = false ∧
      (processFrame grayFrame4 cfgDef).count = 0 :=
  ⟨fun _ _ => rfl, by decide, by decide,
    c3_uniform_count_zero grayFrame4 cfgDef (50, 50, 50) (fun _ _ => rfl)
      (by decide) (by decide)⟩

/-!  Claim C4 — decode failure handling. -/

/-- C4 (confirmed): for an undecodable byte buffer `cv2.imdecode` returns
`None` and the subsequent `img.shape` access aborts the invocation before
any stage runs; the caller sees only the decode failure and no partial
result (no count, no annotated image, no debug grids).  In the model the
decode primitive yields `none` and `processImage` returns exactly the
error. -/
theorem c4_decode_failure (cfg : Config) :
    processImage none cfg = Except.error PipeError.decodeError := rfl

/-!  Claim C5 — configuration validation. -/

set_option maxHeartbeats 4000000 in
set_option maxRecDepth 200000 in
/-- C5 (counterexample): a configuration with extent 0 is NOT rejected:
`process_image` runs to completion on a 5×5 frame with `mask_radius = 0`
(the mask degenerates to the single centre pixel, which the opening then
erases) and silently returns an ordinary result with count 0 — exactly
the silent empty result the specification says must not happen. -/
theorem c5_degenerate_extent_cex :
    processImage (some frame5) cfg0 = Except.ok (processFrame frame5 cfg0) ∧
      (processFrame frame5 cfg0).count = 0 :=
  ⟨rfl, by decide⟩

/-- C5 (amended): the source contains no configuration validation at all:
no invocation, whatever the decoded frame and configuration, ever
produces a ConfigurationError (the only abort is the decode failure).
The UI slider minimum (0.1) is the only guard against a degenerate
extent. -/
theorem c5_no_configuration_error (d : Option Frame) (cfg : Config) :
    processImage d cfg ≠ Except.error PipeError.configurationError := by
  intro h
  cases d <;> simp [processImage] at h

/-!  Claim C6 — determinism. -/

/-- C6 (confirmed): the pipeline is modelled as a pure function of the
decoded frame and the slider configuration — the source reads nothing
else (no randomness, no time, no cross-invocation state), so two
invocations on equal inputs return identical results, counts and
centroids included. -/
theorem c6_deterministic (d1 d2 : Option Frame) (c1 c2 : Config)
    (hd : d1 = d2) (hc : c1 = c2) :
    processImage d1 c1 = processImage d2 c2 := by
  rw [hd, hc]

/-- C6 (witness): two invocations on the same concrete frame and
configuration agree. -/
theorem c6_deterministic_witness :
    processImage (some frame5) cfg0 = processImage (some frame5) cfg0 :=
  c6_deterministic (some frame5) (some frame5) cfg0 cfg0 rfl rfl

/-!  Claim C7 — empty HSV match. -/

/-- C7 (confirmed): when the configured HSV range matches zero pixels of
the masked frame (the binary map is entirely background), the invocation
completes normally — it returns an ordinary result, not an error — and
the count is 0: the empty map stays empty through closing, filling and
opening, the distance field is identically zero, the threshold keeps
nothing and no contour is found. -/
theorem c7_empty_match_count_zero (f : Frame) (cfg : Config)
    (hthr : ∀ x y : ℤ, threshFn f cfg x y = false) :
    processImage (some f) cfg = Except.ok (processFrame f cfg) ∧
      (processFrame f cfg).count = 0 :=
  ⟨rfl, count_zero_engine f cfg hthr⟩

/-- C7 (witness): an all-black 4×4 frame under the default configuration
(V ≥ 140 matches nothing): the binary map is empty and the count is 0. -/
theorem c7_empty_match_count_zero_witness :
    (∀ x y : ℤ, threshFn blackFrame4 cfgDef x y = false) ∧
      (processFrame blackFrame4 cfgDef).count = 0 := by
  have hthr : ∀ x y : ℤ, threshFn blackFrame4 cfgDef x y = false := by
    intro x y
    unfold threshFn
    have hm : maskedPx blackFrame4 cfgDef x y = (0, 0, 0) := by
      unfold maskedPx
      split <;> rfl
    rw [hm, show hsvInRange cfgDef (hsvOf (0, 0, 0)) = false by decide]
    exact Bool.and_false _
  exact ⟨hthr, (c7_empty_match_count_zero blackFrame4 cfgDef hthr).2⟩

/-!  Claim C8 — region-selector geometry. -/

/-- C8 (counterexample): the claim's exact geometry (centre (W/2, H/2),
radius extent·min(H,W)/2, every pixel outside zeroed) fails on odd
dimensions.  On a 5×5 white frame at extent 1 the pixel (0,2) lies
outside the circle of radius 5/2 about (5/2, 5/2) — distance² 6.5 > 6.25
— yet keeps full intensity, because the code floors the centre to
(w//2, h//2) = (2,2) and the radius to int(2.5) = 2, and (0,2) is inside
that floored circle. -/
theorem c8_spotlight_cex :
    (((0 : ℚ) - (frame5.w : ℚ) / 2) ^ 2 + ((2 : ℚ) - (frame5.h : ℚ) / 2) ^ 2 >
        (cfg12.mask_radius * ((min frame5.h frame5.w : ℕ) : ℚ) / 2) ^ 2) ∧
      maskedPx frame5 cfg12 0 2 = (255, 255, 255) := by
  constructor
  · show ((0 : ℚ) - ((5 : ℕ) : ℚ) / 2) ^ 2 + ((2 : ℚ) - ((5 : ℕ) : ℚ) / 2) ^ 2 >
      (cfg12.mask_radius * ((min 5 5 : ℕ) : ℚ) / 2) ^ 2
    norm_num [cfg12]
  · decide

/-- C8 (amended): the code's circle has the integer centre
(w//2, h//2) and the floored radius int(min(h,w)/2·extent); every pixel
strictly outside THAT circle is forced to zero intensity in all three
channels of the masked image (spotlighting, not mere exclusion from
statistics).  For even H and W with an integral radius this coincides
with the claim's circle. -/
theorem c8_spotlight_floored (f : Frame) (cfg : Config) (x y : ℤ)
    (hout : radiusOf f cfg ^ 2 < (x - cxOf f) ^ 2 + (y - cyOf f) ^ 2) :
    maskedPx f cfg x y = (0, 0, 0) := by
  have hmb : maskBit f cfg x y = false := by
    unfold maskBit
    rw [decide_eq_false (not_le.2 hout), Bool.and_false]
  simp [maskedPx, hmb]

/-- C8 (witness): the amended theorem at the corner pixel (0,0) of the
5×5 frame at extent 1: outside the floored circle, and indeed black in
the masked image. -/
theorem c8_spotlight_floored_witness :
    (radiusOf frame5 cfg12 ^ 2 < ((0 : ℤ) - cxOf frame5) ^ 2 + ((0 : ℤ) - cyOf frame5) ^ 2) ∧
      maskedPx frame5 cfg12 0 0 = (0, 0, 0) :=
  ⟨by decide, c8_spotlight_floored frame5 cfg12 0 0 (by decide)⟩

/-!  Claim C9 — frame immutability. -/

/-- C9 (confirmed): `output_img = img.copy()` and every drawing call of
the counting loop (`cv2.circle`, `cv2.putText`, `cv2.rectangle`) targets
only that copy; threading the two buffers through the loop as explicit
state, the original decoded frame after the whole loop is exactly the
input frame. -/
theorem c9_frame_immutable (f : Frame) (cfg : Config) :
    (finalState f cfg).orig = f := by
  unfold finalState
  exact drawLoop_orig cfg (cntsOf f cfg) _

/-!  Claim C10 — counted-but-unlabelled contours. -/

/-- C10 (counterexample): the premise of the implicit claim is
unsatisfiable.  OpenCV computes a contour's `m00` and its `contourArea`
by the same Green formula — `m00G` and `contourAreaG` here — so no
contour has area ≥ 10 (the slider minimum for min_area) while its `m00`
is zero. -/
theorem c10_m00_zero_cex :
    ¬∃ pts : List (ℤ × ℤ), m00G pts = 0 ∧ 10 ≤ contourAreaG pts := by
  rintro ⟨pts, h0, h10⟩
  rw [m00G_eq_contourAreaG] at h0
  rw [h0] at h10
  norm_num at h10

/-- C10 (amended): because `m00` equals `contourArea`, a contour passing
the min-area filter with any positive `min_area` (the source slider keeps
it ≥ 10) always has `m00 ≠ 0`, so the `m00 == 0` guard never skips a
counted contour: every counted detection receives its marker, text label
and bounding box, and the number of drawn labels always equals the
returned count. -/
theorem c10_labels_equal_count (f : Frame) (cfg : Config) (hmin : 1 ≤ cfg.min_area) :
    labelCount (finalState f cfg).anns = (finalState f cfg).count := by
  have h := drawLoop_labels cfg hmin (cntsOf f cfg) ⟨f, f, [], 0⟩
  unfold finalState
  simpa [labelCount] using h

/-- C10 (witness): the amended theorem on the 5×5 run with
min_area = 10. -/
theorem c10_labels_equal_count_witness :
    1 ≤ cfg0.min_area ∧
      labelCount (finalState frame5 cfg0).anns = (finalState frame5 cfg0).count :=
  ⟨by decide, c10_labels_equal_count frame5 cfg0 (by decide)⟩

end PillCounter
